import Mathlib

/-!
Shallow embedding of the image-generation pipeline in `app.py` (repository
tesvaraj/story) and proofs about its observable behaviour.

External collaborators (the chat-completion service, the two image
backends, the URL fetches, the filesystem/PIL image codec and the clock)
are modelled as explicit oracle arguments; everything the Python code
computes itself (string manipulation, filename construction, loop control
flow, credential checks, exit codes) is embedded as executable Lean
functions translated line by line from the source.
-/

namespace Story

/-- Python `str.lower()` (ASCII-relevant part): lowercase every character. -/
def pyLower (s : String) : String :=
  String.mk (s.data.map Char.toLower)

/-- Python `str.startswith(pre)`: the characters of `pre` are an initial
segment of the characters of `s`. -/
def pyStartsWith (s pre : String) : Bool :=
  List.isPrefixOf pre.data s.data

/-- Python `str.strip()`: remove leading and trailing whitespace. -/
def pyStrip (s : String) : String :=
  String.mk (((s.data.dropWhile Char.isWhitespace).reverse.dropWhile
      Char.isWhitespace).reverse)

/-- Worker for `splitLines`: `cur` is the current line accumulated in
reverse; splitting is on the newline character, keeping empty segments,
exactly like Python `str.split(chr(10))`. -/
def splitLinesAux (cur : List Char) : List Char → List String
  | [] => [String.mk cur.reverse]
  | c :: cs =>
    if c = '\n' then String.mk cur.reverse :: splitLinesAux [] cs
    else splitLinesAux (c :: cur) cs

/-- Python `text.split(chr(10))`: split on newlines, keeping empty pieces. -/
def splitLines (s : String) : List String :=
  splitLinesAux [] s.data

/-- Worker for `pySplit`: `cur` is the current word accumulated in reverse;
runs of whitespace separate words and produce no empty words. -/
def pySplitAux (cur : List Char) : List Char → List String
  | [] => if cur.isEmpty then [] else [String.mk cur.reverse]
  | c :: cs =>
    if c.isWhitespace then
      if cur.isEmpty then pySplitAux [] cs
      else String.mk cur.reverse :: pySplitAux [] cs
    else pySplitAux (c :: cur) cs

/-- Python `str.split()` with no argument: whitespace-delimited words,
discarding empty strings. -/
def pySplit (s : String) : List String :=
  pySplitAux [] s.data

/-- Worker for `pyJoin`: interleave a single space between the word
character lists. -/
def joinChars : List (List Char) → List Char
  | [] => []
  | [w] => w
  | w :: ws => w ++ ' ' :: joinChars ws

/-- Python `" ".join(ws)`. -/
def pyJoin (ws : List String) : String :=
  String.mk (joinChars (ws.map String.data))

/-- Decimal digit character for `d < 10` (Python decimal int formatting). -/
def digitChar (d : Nat) : Char :=
  Char.ofNat (48 + d)

/-- Worker for `natDigits`: peel decimal digits from the right into the
accumulator. The fuel argument only bounds the recursion depth; `n + 1`
units always suffice since a number has at most `n + 1` decimal digits. -/
def natDigitsGo : Nat → Nat → List Char → List Char
  | 0, _, acc => acc
  | fuel + 1, n, acc =>
    if n < 10 then digitChar n :: acc
    else natDigitsGo fuel (n / 10) (digitChar (n % 10) :: acc)

/-- Decimal representation of a natural number, most significant digit
first, as rendered by a Python f-string. -/
def natDigits (n : Nat) : List Char :=
  natDigitsGo (n + 1) n []

/-- Decimal rendering of a natural number as a string. -/
def natToString (n : Nat) : String :=
  String.mk (natDigits n)

/-- The base64 alphabet (RFC 4648), as used by Python `base64.b64encode`. -/
def b64Alphabet : List Char :=
  "ABCDEFGHIJKLMNOPQRSTUVWXYZabcdefghijklmnopqrstuvwxyz0123456789+/".data

/-- Character for a 6-bit group. -/
def b64Char (n : Nat) : Char :=
  b64Alphabet.getD n 'A'

/-- Standard base64 encoding of a byte sequence (Python
`base64.b64encode(bytes).decode("utf-8")`). -/
def b64encode : List Nat → List Char
  | [] => []
  | [b1] =>
    [b64Char (b1 / 4), b64Char (b1 % 4 * 16), '=', '=']
  | [b1, b2] =>
    [b64Char (b1 / 4), b64Char (b1 % 4 * 16 + b2 / 16), b64Char (b2 % 16 * 4), '=']
  | b1 :: b2 :: b3 :: rest =>
    b64Char (b1 / 4) :: b64Char (b1 % 4 * 16 + b2 / 16) ::
      b64Char (b2 % 16 * 4 + b3 / 64) :: b64Char (b3 % 64) :: b64encode rest

/-- Base64 encoding as a string. -/
def b64encodeStr (bytes : List Nat) : String :=
  String.mk (b64encode bytes)

/-!
## Embedding of `app.py`

Remote services, the process clock and the image codec/filesystem are
external, so each embedded operation takes them as oracle arguments.
-/

/-- A network call issued by the pipeline (attempted request, whether or
not it succeeds). -/
inductive NetCall
  | chatCompletion
  | togetherImage
  | abloImage
  | urlFetch
deriving DecidableEq, Repr

/-- Success path of `generate_image_prompts` (app.py lines 80-93): split
the returned chat text on line breaks, strip each line, discard empty
lines, truncate to the requested count. -/
def extractPrompts (generatedText : String) (numPrompts : Nat) : List String :=
  ((splitLines (pyStrip generatedText)).filterMap fun p =>
    let q := pyStrip p
    if q = "" then none else some q).take numPrompts

/-- Failure path of `generate_image_prompts` (app.py lines 95-101): a
templated fallback prompt, one per requested count. -/
def fallbackPrompts (concept : String) (numPrompts : Nat)
    (includeNelson : Bool) : List String :=
  if includeNelson then
    List.replicate numPrompts ("n3lson " ++ concept ++ " realistic photo high definition")
  else
    List.replicate numPrompts (concept ++ " realistic photo high definition")

/-- `generate_image_prompts` (app.py lines 24-101). The chat oracle is
`some text` when the remote chat-completion round trip succeeds with body
`text`, and `none` when the transport or parsing raises. The POST is
attempted in both cases, so both record the chat-completion network call. -/
def generate_image_prompts (concept : String) (numPrompts : Nat)
    (includeNelson : Bool) (chat : Option String) : List String × List NetCall :=
  match chat with
  | some generatedText => (extractPrompts generatedText numPrompts, [NetCall.chatCompletion])
  | none => (fallbackPrompts concept numPrompts includeNelson, [NetCall.chatCompletion])

/-- Outcome of one Together image request: a base64 payload, a response
with an empty/missing data field, or a raised exception. -/
inductive TogetherOutcome
  | ok (b64 : String)
  | noData
  | err
deriving DecidableEq

/-- The per-prompt loop of `generate_images_with_together` (app.py lines
151-174): each iteration issues one request; on success the payload and
the prompt are appended, otherwise the prompt is skipped. -/
def togetherRun (oracle : Nat → TogetherOutcome) :
    List String → Nat → List String × List String
  | [], _ => ([], [])
  | p :: ps, i =>
    let rest := togetherRun oracle ps (i + 1)
    match oracle i with
    | TogetherOutcome.ok b => (b :: rest.1, p :: rest.2)
    | TogetherOutcome.noData => rest
    | TogetherOutcome.err => rest

/-- `ImageGenerator.generate_images_with_together` (app.py lines 123-179):
raises `ValueError` when `TOGETHER_API_KEY` is absent, otherwise runs the
per-prompt loop and stores `(generated_images, prompts_used)`. -/
def generate_images_with_together (togetherApiKey : Option String)
    (prompts : List String) (oracle : Nat → TogetherOutcome) :
    Except String (List String × List String × List NetCall) :=
  match togetherApiKey with
  | none =>
    Except.error "TOGETHER_API_KEY is required for Together image generation. Add it to .env file."
  | some _ =>
    let r := togetherRun oracle prompts 0
    Except.ok (r.1, r.2, prompts.map fun _ => NetCall.togetherImage)

/-- The Ablo prompt trim (app.py lines 202-210): if the lowercased prompt
starts with the characters "n3lson" and has more than two
whitespace-delimited words, drop the first two words and re-join the rest
with single spaces; otherwise leave the prompt unchanged. -/
def abloTransform (prompt : String) : String :=
  if pyStartsWith (pyLower prompt) "n3lson" then
    let words := pySplit prompt
    if 2 < words.length then pyJoin (words.drop 2) else prompt
  else prompt

/-- One entry of the `images` array in an Ablo response: an entry without
a `url` key, a URL whose GET succeeds with the given bytes, or a URL whose
GET raises. -/
inductive AbloItem
  | noUrl
  | urlOk (bytes : List Nat)
  | urlErr
deriving DecidableEq

/-- Outcome of one Ablo image-maker request: the POST/parse raises, the
response has no nonempty `images` array, or it carries a list of items. -/
inductive AbloResult
  | reqErr
  | noImages
  | items (l : List AbloItem)
deriving DecidableEq

/-- The inner loop over one Ablo response (app.py lines 230-241): items
are processed in order; a url-less entry is skipped, a fetched image is
base64-encoded and appended together with the decorated prompt (the
decoration uses the global image count after the append), and a failing
fetch raises, abandoning the remaining items of this prompt. `cnt` is the
number of images accumulated before this item. -/
def abloItems (prompt : String) : Nat → List AbloItem →
    List String × List String × List NetCall
  | _, [] => ([], [], [])
  | cnt, AbloItem.noUrl :: rest => abloItems prompt cnt rest
  | _, AbloItem.urlErr :: _ => ([], [], [NetCall.urlFetch])
  | cnt, AbloItem.urlOk bytes :: rest =>
    let r := abloItems prompt (cnt + 1) rest
    (b64encodeStr bytes :: r.1,
     (prompt ++ " (variant " ++ natToString (cnt + 1) ++ ")") :: r.2.1,
     NetCall.urlFetch :: r.2.2)

/-- The per-prompt loop of `generate_images_with_ablo` (app.py lines
198-246): each iteration sends the transformed prompt; a request failure
or an empty response skips the prompt; item processing failures abandon
only the rest of that prompt. -/
def abloLoop (oracle : Nat → String → AbloResult) :
    List String → Nat → Nat → List String × List String × List NetCall
  | [], _, _ => ([], [], [])
  | p :: ps, i, cnt =>
    match oracle i (abloTransform p) with
    | AbloResult.reqErr =>
      let r := abloLoop oracle ps (i + 1) cnt
      (r.1, r.2.1, NetCall.abloImage :: r.2.2)
    | AbloResult.noImages =>
      let r := abloLoop oracle ps (i + 1) cnt
      (r.1, r.2.1, NetCall.abloImage :: r.2.2)
    | AbloResult.items l =>
      let cur := abloItems p cnt l
      let r := abloLoop oracle ps (i + 1) (cnt + cur.1.length)
      (cur.1 ++ r.1, cur.2.1 ++ r.2.1, NetCall.abloImage :: (cur.2.2 ++ r.2.2))

/-- `ImageGenerator.generate_images_with_ablo` (app.py lines 181-251):
raises `ValueError` when `ABLO_KEY` is absent, otherwise runs the
per-prompt loop. -/
def generate_images_with_ablo (abloKey : Option String) (prompts : List String)
    (oracle : Nat → String → AbloResult) :
    Except String (List String × List String × List NetCall) :=
  match abloKey with
  | none => Except.error "ABLO_KEY is required for Ablo image generation. Add it to .env file."
  | some _ => Except.ok (abloLoop oracle prompts 0 0)

/-- The filename built in `save_all_images`/`save_image` (app.py lines
272-273 and 637-638) from the whole-second timestamp and the image index. -/
def saveFilename (timestamp index : Nat) : String :=
  "generated_images/image_" ++ natToString timestamp ++ "_" ++ natToString index ++ ".png"

/-- The save loop of `save_all_images` (app.py lines 269-283): the clock
is read each iteration, and a decode/open/write failure (oracle
`saveOk i = false`) skips that image only. -/
def saveLoop (clock : Nat → Nat) (saveOk : Nat → Bool) :
    List (String × String) → Nat → List (String × String)
  | [], _ => []
  | (_, prompt) :: rest, i =>
    if saveOk i then
      (saveFilename (clock i) i, prompt) :: saveLoop clock saveOk rest (i + 1)
    else saveLoop clock saveOk rest (i + 1)

/-- `ImageGenerator.save_all_images` (app.py lines 253-286): returns the
`(path, prompt)` records of the successfully saved images, in order. -/
def save_all_images (generatedImages promptsUsed : List String)
    (clock : Nat → Nat) (saveOk : Nat → Bool) : List (String × String) :=
  if generatedImages.isEmpty then []
  else saveLoop clock saveOk (generatedImages.zip promptsUsed) 0

/-- `ImageGenerator.save_image` (app.py lines 617-656): returns the saved
path (or `none`), the updated `image_files` state, and the list of files
written. The index guard fires before any filesystem access. -/
def save_image (generatedImages promptsUsed : List String)
    (imageFiles : List (String × String)) (index : Nat) (clock : Nat)
    (filenameArg : Option String) (saveOk : Bool) :
    Option String × List (String × String) × List String :=
  if generatedImages.isEmpty ∨ generatedImages.length ≤ index then
    (none, imageFiles, [])
  else
    let filename :=
      match filenameArg with
      | some f => f
      | none => saveFilename clock index
    if saveOk then
      let prompt :=
        if index < promptsUsed.length then promptsUsed.getD index ""
        else "Generated image " ++ natToString index
      (some filename, imageFiles ++ [(filename, prompt)], [filename])
    else (none, imageFiles, [])

/-- The two image providers selectable from the CLI. -/
inductive Provider
  | together
  | ablo
deriving DecidableEq

/-- The relevant environment variables. -/
structure Env where
  togetherApiKey : Option String
  abloKey : Option String
  pinataJwt : Option String
  walletPrivateKey : Option String

/-- The external collaborators of one pipeline run. -/
structure Oracles where
  chat : Option String
  together : Nat → TogetherOutcome
  ablo : Nat → String → AbloResult
  saveClock : Nat → Nat
  saveOk : Nat → Bool

/-- `create_images_from_concept` (app.py lines 659-734): expand the
concept, render with the selected provider, and return the images and
prompts used (the surrounding try/except turns a raised `ValueError` into
`([], [])`). File writes and the optional upload are filesystem and
subprocess effects, not network calls. -/
def create_images_from_concept (concept : String) (numVariations : Nat)
    (provider : Provider) (env : Env) (o : Oracles) :
    List String × List String × List NetCall :=
  let includeNelson := provider = Provider.together
  let numPrompts := if provider = Provider.ablo then 1 else numVariations
  let pr := generate_image_prompts concept numPrompts includeNelson o.chat
  let rendered :=
    if provider = Provider.ablo then generate_images_with_ablo env.abloKey pr.1 o.ablo
    else generate_images_with_together env.togetherApiKey pr.1 o.together
  match rendered with
  | Except.error _ => ([], [], pr.2)
  | Except.ok (images, promptsUsed, ev) =>
    if images.isEmpty then ([], [], pr.2 ++ ev)
    else (images, promptsUsed, pr.2 ++ ev)

/-- `main` (app.py lines 804-859) in CLI generation mode (no `--serve`):
credential checks run before the pipeline; the return value becomes the
process exit code via `sys.exit(main())`. Returns (exit code, images
produced, network calls issued). -/
def cliMain (concept : String) (variations : Nat) (provider : Provider)
    (upload : Bool) (env : Env) (o : Oracles) : Nat × List String × List NetCall :=
  if provider = Provider.together ∧ env.togetherApiKey = none then (1, [], [])
  else if provider = Provider.ablo ∧ env.abloKey = none then (1, [], [])
  else if upload ∧ (env.pinataJwt = none ∨ env.walletPrivateKey = none) then (1, [], [])
  else
    let r := create_images_from_concept concept variations provider env o
    (if r.1.isEmpty then 1 else 0, r.1, r.2.2)

/-- `api_generate_image` (app.py lines 738-790): the `/api/generate-image`
endpoint. No credential check happens before the prompt-generation call;
a missing key only raises inside the render step, which the outer except
turns into a 500 response. Returns (HTTP status, network calls issued). -/
def apiGenerate (promptField : String) (provider : Provider) (env : Env)
    (o : Oracles) : Nat × List NetCall :=
  let includeNelson := provider = Provider.together
  let pr := generate_image_prompts promptField 1 includeNelson o.chat
  if pr.1.isEmpty then (500, pr.2)
  else
    let rendered :=
      if provider = Provider.ablo then generate_images_with_ablo env.abloKey pr.1 o.ablo
      else generate_images_with_together env.togetherApiKey pr.1 o.together
    match rendered with
    | Except.error _ => (500, pr.2)
    | Except.ok (images, promptsUsed, ev) =>
      if images.isEmpty then (500, pr.2 ++ ev)
      else
        let saved := save_image images promptsUsed [] 0 (o.saveClock 0) none (o.saveOk 0)
        match saved.1 with
        | none => (500, pr.2 ++ ev)
        | some _ => (200, pr.2 ++ ev)

/-!
## Decimal rendering: correctness and injectivity
-/

/-- Value of a most-significant-first decimal digit list. -/
def digitsVal (l : List Char) : Nat :=
  l.foldl (fun a c => a * 10 + (c.toNat - 48)) 0

theorem digitChar_toNat {d : Nat} (h : d < 10) : (digitChar d).toNat = 48 + d := by
  interval_cases d <;> rfl

theorem natDigitsGo_acc (fuel : Nat) : ∀ (n : Nat) (acc : List Char),
    natDigitsGo fuel n acc = natDigitsGo fuel n [] ++ acc := by
  induction fuel with
  | zero => intro n acc; simp [natDigitsGo]
  | succ fuel ih =>
    intro n acc
    by_cases h : n < 10
    · simp [natDigitsGo, h]
    · simp only [natDigitsGo, if_neg h]
      rw [ih (n / 10) (digitChar (n % 10) :: acc), ih (n / 10) [digitChar (n % 10)]]
      simp

theorem digitsVal_append_singleton (xs : List Char) (c : Char) :
    digitsVal (xs ++ [c]) = digitsVal xs * 10 + (c.toNat - 48) := by
  simp [digitsVal, List.foldl_append]

theorem natDigitsGo_val (fuel : Nat) : ∀ n : Nat, n < 10 ^ fuel →
    digitsVal (natDigitsGo fuel n []) = n := by
  induction fuel with
  | zero =>
    intro n hn
    have : n = 0 := by simpa using hn
    subst this
    simp [natDigitsGo, digitsVal]
  | succ fuel ih =>
    intro n hn
    by_cases h : n < 10
    · simp [natDigitsGo, h, digitsVal, digitChar_toNat h]
    · simp only [natDigitsGo, if_neg h]
      rw [natDigitsGo_acc, digitsVal_append_singleton]
      have hdiv : n / 10 < 10 ^ fuel := by
        rw [Nat.div_lt_iff_lt_mul (by omega)]
        calc n < 10 ^ (fuel + 1) := hn
        _ = 10 ^ fuel * 10 := by rw [pow_succ]
      rw [ih (n / 10) hdiv, digitChar_toNat (Nat.mod_lt n (by omega))]
      omega

theorem digitsVal_natDigits (n : Nat) : digitsVal (natDigits n) = n := by
  have hlt : n < 10 ^ (n + 1) := by
    calc n < 10 ^ n := Nat.lt_pow_self (by omega) n
    _ ≤ 10 ^ (n + 1) := Nat.pow_le_pow_right (by omega) (Nat.le_succ n)
  exact natDigitsGo_val (n + 1) n hlt

theorem natDigits_inj {m n : Nat} (h : natDigits m = natDigits n) : m = n := by
  have hm := digitsVal_natDigits m
  rw [h, digitsVal_natDigits] at hm
  omega

theorem natDigitsGo_digits (fuel : Nat) : ∀ (n : Nat) (acc : List Char),
    (∀ c ∈ acc, 48 ≤ c.toNat ∧ c.toNat ≤ 57) →
    ∀ c ∈ natDigitsGo fuel n acc, 48 ≤ c.toNat ∧ c.toNat ≤ 57 := by
  induction fuel with
  | zero => intro n acc hacc; simpa [natDigitsGo] using hacc
  | succ fuel ih =>
    intro n acc hacc c hc
    by_cases h : n < 10
    · simp only [natDigitsGo, if_pos h] at hc
      rcases List.mem_cons.mp hc with hc | hc
      · subst hc; rw [digitChar_toNat h]; omega
      · exact hacc c hc
    · simp only [natDigitsGo, if_neg h] at hc
      refine ih (n / 10) (digitChar (n % 10) :: acc) ?_ c hc
      intro x hx
      rcases List.mem_cons.mp hx with hx | hx
      · subst hx; rw [digitChar_toNat (Nat.mod_lt n (by omega))]; omega
      · exact hacc x hx

theorem natDigits_digits (n : Nat) : ∀ c ∈ natDigits n, 48 ≤ c.toNat ∧ c.toNat ≤ 57 :=
  natDigitsGo_digits (n + 1) n [] (by simp)

theorem natDigits_ne_underscore (n : Nat) : ∀ c ∈ natDigits n, c ≠ '_' := by
  intro c hc hcon
  have hb := natDigits_digits n c hc
  subst hcon
  have : ('_').toNat = 95 := rfl
  omega

theorem natDigits_ne_dot (n : Nat) : ∀ c ∈ natDigits n, c ≠ '.' := by
  intro c hc hcon
  have hb := natDigits_digits n c hc
  subst hcon
  have : ('.').toNat = 46 := rfl
  omega

/-- A character that occurs in neither side of a separator-delimited
concatenation pins down the split point. -/
theorem sep_split (c : Char) : ∀ (a1 a2 r1 r2 : List Char),
    (∀ x ∈ a1, x ≠ c) → (∀ x ∈ a2, x ≠ c) →
    a1 ++ c :: r1 = a2 ++ c :: r2 → a1 = a2 ∧ r1 = r2 := by
  intro a1
  induction a1 with
  | nil =>
    intro a2 r1 r2 _ h2 heq
    cases a2 with
    | nil => simpa using heq
    | cons y ys =>
      simp only [List.nil_append, List.cons_append, List.cons.injEq] at heq
      exact absurd heq.1.symm (h2 y (List.mem_cons_self y ys))
  | cons x xs ih =>
    intro a2 r1 r2 h1 h2 heq
    cases a2 with
    | nil =>
      simp only [List.cons_append, List.nil_append, List.cons.injEq] at heq
      exact absurd heq.1 (h1 x (List.mem_cons_self x xs))
    | cons y ys =>
      simp only [List.cons_append, List.cons.injEq] at heq
      have hrest := ih ys r1 r2 (fun z hz => h1 z (List.mem_cons_of_mem x hz))
        (fun z hz => h2 z (List.mem_cons_of_mem y hz)) heq.2
      exact ⟨by rw [heq.1, hrest.1], hrest.2⟩

theorem saveFilename_data (t i : Nat) : (saveFilename t i).data =
    "generated_images/image_".data ++
      (natDigits t ++ ('_' :: (natDigits i ++ ".png".data))) := by
  simp [saveFilename, natToString, String.data_append, List.append_assoc]

/-- Distinct (timestamp, index) pairs always give distinct filenames:
the decimal blocks contain neither the underscore separator nor the dot. -/
theorem saveFilename_inj {t1 i1 t2 i2 : Nat}
    (h : saveFilename t1 i1 = saveFilename t2 i2) : t1 = t2 ∧ i1 = i2 := by
  have hd := congrArg String.data h
  rw [saveFilename_data, saveFilename_data] at hd
  have hd2 := List.append_cancel_left hd
  have hsplit1 := sep_split '_' (natDigits t1) (natDigits t2) _ _
    (natDigits_ne_underscore t1) (natDigits_ne_underscore t2) hd2
  have hdot : (".png" : String).data = '.' :: "png".data := rfl
  have hd3 := hsplit1.2
  rw [hdot] at hd3
  have hsplit2 := sep_split '.' (natDigits i1) (natDigits i2) _ _
    (natDigits_ne_dot i1) (natDigits_ne_dot i2) hd3
  exact ⟨natDigits_inj hsplit1.1, natDigits_inj hsplit2.1⟩

/-!
## Stripping and splitting lemmas
-/

theorem mk_eq_empty_iff (l : List Char) : String.mk l = "" ↔ l = [] := by
  constructor
  · intro h
    have := congrArg String.data h
    simpa using this
  · intro h
    rw [h]

theorem mem_dropWhile_of_not {p : Char → Bool} {c : Char} (hc : p c = false) :
    ∀ l : List Char, c ∈ l → c ∈ l.dropWhile p := by
  intro l
  induction l with
  | nil => intro h; exact absurd h (List.not_mem_nil c)
  | cons a as ih =>
    intro h
    by_cases hpa : p a = true
    · rw [List.dropWhile_cons_of_pos hpa]
      rcases List.mem_cons.mp h with h | h
      · subst h; rw [hpa] at hc; exact absurd hc (by simp)
      · exact ih h
    · rw [List.dropWhile_cons_of_neg hpa]
      exact h

theorem dropWhile_head_false {p : Char → Bool} :
    ∀ (l : List Char) (c : Char) (rest : List Char),
    l.dropWhile p = c :: rest → p c = false := by
  intro l
  induction l with
  | nil => intro c rest h; simp at h
  | cons a as ih =>
    intro c rest h
    by_cases hpa : p a = true
    · rw [List.dropWhile_cons_of_pos hpa] at h
      exact ih c rest h
    · rw [List.dropWhile_cons_of_neg hpa] at h
      rw [← (List.cons.injEq .. ▸ h : a = c ∧ _).1]
      exact Bool.eq_false_iff.mpr hpa

theorem pyStrip_data (s : String) : (pyStrip s).data =
    ((s.data.dropWhile Char.isWhitespace).reverse.dropWhile Char.isWhitespace).reverse := rfl

theorem pyStrip_ne_empty_of_mem {s : String} {c : Char}
    (hmem : c ∈ s.data) (hws : c.isWhitespace = false) : pyStrip s ≠ "" := by
  intro h
  have h1 := mem_dropWhile_of_not hws s.data hmem
  have h2 : c ∈ (s.data.dropWhile Char.isWhitespace).reverse := List.mem_reverse.mpr h1
  have h3 := mem_dropWhile_of_not hws _ h2
  have h4 : c ∈ (pyStrip s).data := by
    rw [pyStrip_data]
    exact List.mem_reverse.mpr h3
  rw [h, show ("" : String).data = [] from rfl] at h4
  exact absurd h4 (List.not_mem_nil c)

theorem exists_nonws_of_pyStrip_ne {s : String} (h : pyStrip s ≠ "") :
    ∃ c ∈ (pyStrip s).data, c.isWhitespace = false := by
  rcases hu : s.data.dropWhile Char.isWhitespace with _ | ⟨c, rest⟩
  · exact absurd (by rw [show pyStrip s = String.mk (pyStrip s).data from rfl,
      pyStrip_data, hu, mk_eq_empty_iff]; rfl) h
  · have hcns : c.isWhitespace = false := dropWhile_head_false s.data c rest hu
    have hc1 : c ∈ (s.data.dropWhile Char.isWhitespace).reverse := by
      rw [hu]
      exact List.mem_reverse.mpr (List.mem_cons_self c rest)
    have hc2 := mem_dropWhile_of_not hcns _ hc1
    exact ⟨c, by rw [pyStrip_data]; exact List.mem_reverse.mpr hc2, hcns⟩

theorem splitLinesAux_exists : ∀ (l cur : List Char),
    (∃ c, (c ∈ cur ∨ c ∈ l) ∧ c.isWhitespace = false) →
    ∃ p ∈ splitLinesAux cur l, pyStrip p ≠ "" := by
  intro l
  induction l with
  | nil =>
    rintro cur ⟨c, hc, hws⟩
    rcases hc with hc | hc
    · refine ⟨String.mk cur.reverse, List.mem_singleton.mpr rfl, ?_⟩
      exact pyStrip_ne_empty_of_mem (List.mem_reverse.mpr hc) hws
    · exact absurd hc (List.not_mem_nil c)
  | cons a as ih =>
    rintro cur ⟨c, hc, hws⟩
    by_cases ha : a = '\n'
    · subst ha
      simp only [splitLinesAux, if_pos rfl]
      rcases hc with hc | hc
      · refine ⟨String.mk cur.reverse, List.mem_cons_self _ _, ?_⟩
        exact pyStrip_ne_empty_of_mem (List.mem_reverse.mpr hc) hws
      · rcases List.mem_cons.mp hc with hc | hc
        · subst hc
          simp at hws
        · obtain ⟨p, hp, hpne⟩ := ih [] ⟨c, Or.inr hc, hws⟩
          exact ⟨p, List.mem_cons_of_mem _ hp, hpne⟩
    · simp only [splitLinesAux, if_neg ha]
      refine ih (a :: cur) ⟨c, ?_, hws⟩
      rcases hc with hc | hc
      · exact Or.inl (List.mem_cons_of_mem a hc)
      · rcases List.mem_cons.mp hc with hc | hc
        · exact Or.inl (hc ▸ List.mem_cons_self a cur)
        · exact Or.inr hc

theorem take_ne_nil_of_ne {α : Type} {l : List α} {n : Nat}
    (hl : l ≠ []) (hn : 1 ≤ n) : l.take n ≠ [] := by
  cases l with
  | nil => exact absurd rfl hl
  | cons a as =>
    cases n with
    | zero => omega
    | succ m => simp

theorem extractPrompts_length_le (text : String) (n : Nat) :
    (extractPrompts text n).length ≤ n := by
  unfold extractPrompts
  exact List.length_take_le n _

theorem extractPrompts_mem_ne {text : String} {n : Nat} {p : String}
    (h : p ∈ extractPrompts text n) : p ≠ "" := by
  unfold extractPrompts at h
  have h2 := List.mem_of_mem_take h
  obtain ⟨q, _, hfq⟩ := List.mem_filterMap.mp h2
  by_cases hq2 : pyStrip q = ""
  · simp [hq2] at hfq
  · simp only [if_neg hq2, Option.some.injEq] at hfq
    rw [← hfq]
    exact hq2

theorem extractPrompts_of_strip_empty {text : String} (n : Nat)
    (hps : pyStrip text = "") : extractPrompts text n = [] := by
  unfold extractPrompts
  rw [hps]
  cases n <;> rfl

theorem extractPrompts_ne_nil_iff (text : String) (n : Nat) :
    extractPrompts text n ≠ [] ↔ 1 ≤ n ∧ pyStrip text ≠ "" := by
  constructor
  · intro h
    refine ⟨?_, ?_⟩
    · by_contra hn
      have hn0 : n = 0 := by omega
      subst hn0
      exact h (by unfold extractPrompts; rfl)
    · intro hps
      exact h (extractPrompts_of_strip_empty n hps)
  · rintro ⟨hn, hps⟩
    obtain ⟨c, hc, hws⟩ := exists_nonws_of_pyStrip_ne hps
    obtain ⟨p, hp, hpne⟩ := splitLinesAux_exists (pyStrip text).data [] ⟨c, Or.inr hc, hws⟩
    have hmem : pyStrip p ∈ (splitLines (pyStrip text)).filterMap
        (fun p => let q := pyStrip p; if q = "" then none else some q) :=
      List.mem_filterMap.mpr ⟨p, hp, by simp [hpne]⟩
    unfold extractPrompts
    exact take_ne_nil_of_ne (List.ne_nil_of_mem hmem) hn

theorem mk_data (s : String) : String.mk s.data = s := by
  cases s
  rfl

theorem pySplitAux_nil (cur : List Char) :
    pySplitAux cur [] = if cur.isEmpty then [] else [String.mk cur.reverse] := rfl

theorem pySplitAux_cons (cur : List Char) (c : Char) (cs : List Char) :
    pySplitAux cur (c :: cs) =
      if c.isWhitespace then
        if cur.isEmpty then pySplitAux [] cs
        else String.mk cur.reverse :: pySplitAux [] cs
      else pySplitAux (c :: cur) cs := rfl

theorem ne_nil_of_isEmpty_ne {cur : List Char} (hc : ¬cur.isEmpty = true) :
    cur ≠ [] :=
  fun h => hc (by rw [h]; rfl)

theorem reverse_ne_nil_of_ne {cur : List Char} (hc : cur ≠ []) :
    cur.reverse ≠ [] :=
  fun h => hc (List.reverse_eq_nil_iff.mp h)

/-- Every word produced by `pySplit` is nonempty and whitespace-free. -/
theorem pySplitAux_words : ∀ (l cur : List Char),
    (∀ c ∈ cur, c.isWhitespace = false) →
    ∀ w ∈ pySplitAux cur l, w.data ≠ [] ∧ ∀ c ∈ w.data, c.isWhitespace = false := by
  intro l
  induction l with
  | nil =>
    intro cur hcur w hw
    rw [pySplitAux_nil] at hw
    by_cases hc : cur.isEmpty = true
    · rw [if_pos hc] at hw
      exact absurd hw (List.not_mem_nil w)
    · rw [if_neg hc] at hw
      have hw2 := List.mem_singleton.mp hw
      subst hw2
      refine ⟨?_, ?_⟩
      · show cur.reverse ≠ []
        exact reverse_ne_nil_of_ne (ne_nil_of_isEmpty_ne hc)
      · intro ch hch
        exact hcur ch (List.mem_reverse.mp hch)
  | cons a as ih =>
    intro cur hcur w hw
    rw [pySplitAux_cons] at hw
    by_cases haws : a.isWhitespace = true
    · rw [if_pos haws] at hw
      by_cases hc : cur.isEmpty = true
      · rw [if_pos hc] at hw
        exact ih [] (by simp) w hw
      · rw [if_neg hc] at hw
        rcases List.mem_cons.mp hw with hw | hw
        · subst hw
          refine ⟨?_, ?_⟩
          · show cur.reverse ≠ []
            exact reverse_ne_nil_of_ne (ne_nil_of_isEmpty_ne hc)
          · intro ch hch
            exact hcur ch (List.mem_reverse.mp hch)
        · exact ih [] (by simp) w hw
    · rw [if_neg haws] at hw
      refine ih (a :: cur) ?_ w hw
      intro ch hch
      rcases List.mem_cons.mp hch with hch | hch
      · subst hch
        exact Bool.eq_false_iff.mpr haws
      · exact hcur ch hch

/-- `pySplitAux` consumes a whitespace-free word by moving it into the
accumulator. -/
theorem pySplitAux_through : ∀ (w : List Char) (cur r : List Char),
    (∀ c ∈ w, c.isWhitespace = false) →
    pySplitAux cur (w ++ r) = pySplitAux (w.reverse ++ cur) r := by
  intro w
  induction w with
  | nil => intro cur r _; simp
  | cons c cs ih =>
    intro cur r hw
    have hc : c.isWhitespace = false := hw c (List.mem_cons_self c cs)
    have hcn : ¬(c.isWhitespace = true) := by rw [hc]; exact Bool.false_ne_true
    rw [List.cons_append, pySplitAux_cons, if_neg hcn,
      ih (c :: cur) r (fun x hx => hw x (List.mem_cons_of_mem c hx))]
    simp [List.append_assoc]

/-- Joining whitespace-free nonempty words with single spaces and
re-splitting recovers exactly the word list. -/
theorem pySplit_pyJoin : ∀ ts : List String,
    (∀ t ∈ ts, t.data ≠ [] ∧ ∀ c ∈ t.data, c.isWhitespace = false) →
    pySplit (pyJoin ts) = ts := by
  intro ts
  induction ts with
  | nil => intro _; rfl
  | cons t rest ih =>
    intro hts
    have ht := hts t (List.mem_cons_self t rest)
    have hcn : ¬(t.data.reverse.isEmpty = true) := by
      intro h
      exact reverse_ne_nil_of_ne ht.1 (List.isEmpty_iff.mp h)
    cases rest with
    | nil =>
      show pySplitAux [] (joinChars [t.data]) = [t]
      have hj : joinChars [t.data] = t.data ++ [] := by simp [joinChars]
      rw [hj, pySplitAux_through t.data [] [] ht.2, List.append_nil,
        pySplitAux_nil, if_neg hcn, List.reverse_reverse, mk_data]
    | cons t2 rest2 =>
      show pySplitAux [] (joinChars (t.data :: (t2 :: rest2).map String.data)) =
        t :: t2 :: rest2
      have hj : joinChars (t.data :: (t2 :: rest2).map String.data) =
          t.data ++ ' ' :: joinChars ((t2 :: rest2).map String.data) := by
        simp [joinChars]
      have hsp : (' ').isWhitespace = true := rfl
      rw [hj, pySplitAux_through t.data [] _ ht.2, List.append_nil,
        pySplitAux_cons, if_pos hsp, if_neg hcn, List.reverse_reverse, mk_data]
      exact congrArg (t :: ·) (ih (fun x hx => hts x (List.mem_cons_of_mem t hx)))

/-!
## Render-loop and save-loop characterizations
-/

theorem filterMap_if_eq_map_filter {α β : Type} (p : α → Bool) (g : α → β) :
    ∀ l : List α,
    (l.filterMap fun x => if p x then some (g x) else none) = (l.filter p).map g := by
  intro l
  induction l with
  | nil => rfl
  | cons a as ih =>
    by_cases ha : p a = true
    · simp [List.filterMap_cons, List.filter_cons, ha, ih]
    · simp [List.filterMap_cons, List.filter_cons, ha, ih]

/-- The success pairs of one Together render pass: for every prompt whose
request succeeds, the returned payload paired with that prompt, in input
order. -/
def togPairs (oracle : Nat → TogetherOutcome) (prompts : List String)
    (i : Nat) : List (String × String) :=
  (List.enumFrom i prompts).filterMap fun x =>
    match oracle x.1 with
    | TogetherOutcome.ok b => some (b, x.2)
    | TogetherOutcome.noData => none
    | TogetherOutcome.err => none

theorem togPairs_cons (oracle : Nat → TogetherOutcome) (p : String)
    (ps : List String) (i : Nat) :
    togPairs oracle (p :: ps) i =
      (match oracle i with
       | TogetherOutcome.ok b => [(b, p)]
       | TogetherOutcome.noData => []
       | TogetherOutcome.err => []) ++ togPairs oracle ps (i + 1) := by
  show List.filterMap _ ((i, p) :: List.enumFrom (i + 1) ps) = _
  rw [List.filterMap_cons]
  cases oracle i <;> rfl

theorem togetherRun_eq (oracle : Nat → TogetherOutcome) :
    ∀ (ps : List String) (i : Nat),
    togetherRun oracle ps i =
      ((togPairs oracle ps i).map Prod.fst, (togPairs oracle ps i).map Prod.snd) := by
  intro ps
  induction ps with
  | nil => intro i; rfl
  | cons p ps ih =>
    intro i
    rw [togPairs_cons]
    cases horacle : oracle i with
    | ok b => simp [togetherRun, horacle, ih (i + 1)]
    | noData => simp [togetherRun, horacle, ih (i + 1)]
    | err => simp [togetherRun, horacle, ih (i + 1)]

theorem togPairs_length_le (oracle : Nat → TogetherOutcome)
    (prompts : List String) (i : Nat) :
    (togPairs oracle prompts i).length ≤ prompts.length := by
  calc (togPairs oracle prompts i).length ≤ (List.enumFrom i prompts).length :=
        List.length_filterMap_le _ _
  _ = prompts.length := List.enumFrom_length

theorem saveLoop_nil (clock : Nat → Nat) (saveOk : Nat → Bool) (i : Nat) :
    saveLoop clock saveOk [] i = [] := rfl

theorem saveLoop_cons (clock : Nat → Nat) (saveOk : Nat → Bool)
    (a b : String) (rest : List (String × String)) (i : Nat) :
    saveLoop clock saveOk ((a, b) :: rest) i =
      if saveOk i then
        (saveFilename (clock i) i, b) :: saveLoop clock saveOk rest (i + 1)
      else saveLoop clock saveOk rest (i + 1) := rfl

theorem saveLoop_eq (clock : Nat → Nat) (saveOk : Nat → Bool) :
    ∀ (l : List (String × String)) (i : Nat),
    saveLoop clock saveOk l i =
      (((List.enumFrom i l).filter fun x => saveOk x.1).map
        fun x => (saveFilename (clock x.1) x.1, x.2.2)) := by
  intro l
  induction l with
  | nil => intro i; rfl
  | cons pair rest ih =>
    intro i
    obtain ⟨a, b⟩ := pair
    rw [saveLoop_cons]
    show _ = ((List.filter _ ((i, (a, b)) :: List.enumFrom (i + 1) rest)).map _)
    rw [List.filter_cons]
    by_cases h : saveOk i = true
    · simp only [h, if_pos, if_true, List.map_cons]
      rw [ih (i + 1)]
    · simp only [h, Bool.false_eq_true, if_neg, if_false]
      rw [ih (i + 1)]

theorem abloItems_nil (p : String) (cnt : Nat) :
    abloItems p cnt [] = ([], [], []) := rfl

theorem abloItems_noUrl (p : String) (cnt : Nat) (rest : List AbloItem) :
    abloItems p cnt (AbloItem.noUrl :: rest) = abloItems p cnt rest := rfl

theorem abloItems_urlErr (p : String) (cnt : Nat) (rest : List AbloItem) :
    abloItems p cnt (AbloItem.urlErr :: rest) = ([], [], [NetCall.urlFetch]) := rfl

theorem abloItems_urlOk (p : String) (cnt : Nat) (bytes : List Nat)
    (rest : List AbloItem) :
    abloItems p cnt (AbloItem.urlOk bytes :: rest) =
      (b64encodeStr bytes :: (abloItems p (cnt + 1) rest).1,
       (p ++ " (variant " ++ natToString (cnt + 1) ++ ")") :: (abloItems p (cnt + 1) rest).2.1,
       NetCall.urlFetch :: (abloItems p (cnt + 1) rest).2.2) := rfl

theorem abloItems_len : ∀ (l : List AbloItem) (p : String) (cnt : Nat),
    (abloItems p cnt l).1.length = (abloItems p cnt l).2.1.length := by
  intro l
  induction l with
  | nil => intro p cnt; rfl
  | cons item rest ih =>
    intro p cnt
    cases item with
    | noUrl => rw [abloItems_noUrl]; exact ih p cnt
    | urlErr => rfl
    | urlOk bytes =>
      rw [abloItems_urlOk]
      simpa using ih p (cnt + 1)

theorem abloItems_get : ∀ (l : List AbloItem) (p : String) (cnt j : Nat)
    (h1 : j < (abloItems p cnt l).1.length) (h2 : j < (abloItems p cnt l).2.1.length),
    (abloItems p cnt l).2.1[j] = p ++ " (variant " ++ natToString (cnt + j + 1) ++ ")" ∧
    ∃ bytes, AbloItem.urlOk bytes ∈ l ∧ (abloItems p cnt l).1[j] = b64encodeStr bytes := by
  intro l
  induction l with
  | nil =>
    intro p cnt j h1 _
    rw [abloItems_nil] at h1
    exact absurd h1 (by simp)
  | cons item rest ih =>
    intro p cnt j h1 h2
    cases item with
    | noUrl =>
      rw [abloItems_noUrl] at h1 h2
      simp only [abloItems_noUrl]
      obtain ⟨hdec, bytes, hmem, hget⟩ := ih p cnt j h1 h2
      exact ⟨hdec, bytes, List.mem_cons_of_mem _ hmem, hget⟩
    | urlErr =>
      rw [abloItems_urlErr] at h1
      exact absurd h1 (by simp)
    | urlOk bytes =>
      rw [abloItems_urlOk] at h1 h2
      simp only [abloItems_urlOk]
      cases j with
      | zero =>
        refine ⟨by simp, bytes, List.mem_cons_self _ _, by simp⟩
      | succ jj =>
        simp only [List.length_cons, Nat.succ_lt_succ_iff] at h1 h2
        obtain ⟨hdec, bytes2, hmem, hget⟩ := ih p (cnt + 1) jj h1 h2
        refine ⟨?_, bytes2, List.mem_cons_of_mem _ hmem, by simpa using hget⟩
        have harith : cnt + 1 + jj + 1 = cnt + (jj + 1) + 1 := by omega
        simpa [harith] using hdec

theorem abloLoop_reqErr (oracle : Nat → String → AbloResult) (p : String)
    (ps : List String) (i cnt : Nat)
    (h : oracle i (abloTransform p) = AbloResult.reqErr) :
    abloLoop oracle (p :: ps) i cnt =
      ((abloLoop oracle ps (i + 1) cnt).1, (abloLoop oracle ps (i + 1) cnt).2.1,
       NetCall.abloImage :: (abloLoop oracle ps (i + 1) cnt).2.2) := by
  show (match oracle i (abloTransform p) with
    | AbloResult.reqErr => _
    | AbloResult.noImages => _
    | AbloResult.items _ => _) = _
  rw [h]

theorem abloLoop_noImages (oracle : Nat → String → AbloResult) (p : String)
    (ps : List String) (i cnt : Nat)
    (h : oracle i (abloTransform p) = AbloResult.noImages) :
    abloLoop oracle (p :: ps) i cnt =
      ((abloLoop oracle ps (i + 1) cnt).1, (abloLoop oracle ps (i + 1) cnt).2.1,
       NetCall.abloImage :: (abloLoop oracle ps (i + 1) cnt).2.2) := by
  show (match oracle i (abloTransform p) with
    | AbloResult.reqErr => _
    | AbloResult.noImages => _
    | AbloResult.items _ => _) = _
  rw [h]

theorem abloLoop_items (oracle : Nat → String → AbloResult) (p : String)
    (ps : List String) (i cnt : Nat) (l : List AbloItem)
    (h : oracle i (abloTransform p) = AbloResult.items l) :
    abloLoop oracle (p :: ps) i cnt =
      ((abloItems p cnt l).1 ++
         (abloLoop oracle ps (i + 1) (cnt + (abloItems p cnt l).1.length)).1,
       (abloItems p cnt l).2.1 ++
         (abloLoop oracle ps (i + 1) (cnt + (abloItems p cnt l).1.length)).2.1,
       NetCall.abloImage :: ((abloItems p cnt l).2.2 ++
         (abloLoop oracle ps (i + 1) (cnt + (abloItems p cnt l).1.length)).2.2)) := by
  show (match oracle i (abloTransform p) with
    | AbloResult.reqErr => _
    | AbloResult.noImages => _
    | AbloResult.items _ => _) = _
  rw [h]

theorem abloLoop_len (oracle : Nat → String → AbloResult) :
    ∀ (ps : List String) (i cnt : Nat),
    (abloLoop oracle ps i cnt).1.length = (abloLoop oracle ps i cnt).2.1.length := by
  intro ps
  induction ps with
  | nil => intro i cnt; rfl
  | cons p ps ih =>
    intro i cnt
    cases horacle : oracle i (abloTransform p) with
    | reqErr => rw [abloLoop_reqErr oracle p ps i cnt horacle]; exact ih (i + 1) cnt
    | noImages => rw [abloLoop_noImages oracle p ps i cnt horacle]; exact ih (i + 1) cnt
    | items l =>
      rw [abloLoop_items oracle p ps i cnt l horacle]
      simp only [List.length_append]
      rw [abloItems_len, ih (i + 1)]

theorem abloLoop_get (oracle : Nat → String → AbloResult) :
    ∀ (ps : List String) (i cnt j : Nat)
    (h1 : j < (abloLoop oracle ps i cnt).1.length)
    (h2 : j < (abloLoop oracle ps i cnt).2.1.length),
    ∃ x ∈ List.enumFrom i ps, ∃ l0, oracle x.1 (abloTransform x.2) = AbloResult.items l0 ∧
      ∃ bytes, AbloItem.urlOk bytes ∈ l0 ∧
        (abloLoop oracle ps i cnt).2.1[j] =
          x.2 ++ " (variant " ++ natToString (cnt + j + 1) ++ ")" ∧
        (abloLoop oracle ps i cnt).1[j] = b64encodeStr bytes := by
  intro ps
  induction ps with
  | nil =>
    intro i cnt j h1 _
    exact absurd h1 (by simp [abloLoop])
  | cons p ps ih =>
    intro i cnt j h1 h2
    cases horacle : oracle i (abloTransform p) with
    | reqErr =>
      rw [abloLoop_reqErr oracle p ps i cnt horacle] at h1 h2
      simp only [abloLoop_reqErr oracle p ps i cnt horacle]
      obtain ⟨x, hx, rest⟩ := ih (i + 1) cnt j h1 h2
      exact ⟨x, List.mem_cons_of_mem _ hx, rest⟩
    | noImages =>
      rw [abloLoop_noImages oracle p ps i cnt horacle] at h1 h2
      simp only [abloLoop_noImages oracle p ps i cnt horacle]
      obtain ⟨x, hx, rest⟩ := ih (i + 1) cnt j h1 h2
      exact ⟨x, List.mem_cons_of_mem _ hx, rest⟩
    | items l =>
      rw [abloLoop_items oracle p ps i cnt l horacle] at h1 h2
      simp only [abloLoop_items oracle p ps i cnt l horacle]
      by_cases hj : j < (abloItems p cnt l).1.length
      · have hj2 : j < (abloItems p cnt l).2.1.length := by rw [← abloItems_len]; exact hj
        obtain ⟨hdec, bytes, hmem, hget⟩ := abloItems_get l p cnt j hj hj2
        refine ⟨(i, p), List.mem_cons_self _ _, l, horacle, bytes, hmem, ?_, ?_⟩
        · rw [List.getElem_append_left hj2]
          exact hdec
        · rw [List.getElem_append_left hj]
          exact hget
      · push_neg at hj
        have hj2 : (abloItems p cnt l).2.1.length ≤ j := by rw [← abloItems_len]; exact hj
        simp only [List.length_append] at h1 h2
        have h1r : j - (abloItems p cnt l).1.length <
            (abloLoop oracle ps (i + 1) (cnt + (abloItems p cnt l).1.length)).1.length := by
          omega
        have h2r : j - (abloItems p cnt l).1.length <
            (abloLoop oracle ps (i + 1) (cnt + (abloItems p cnt l).1.length)).2.1.length := by
          have hlen := abloItems_len l p cnt
          omega
        obtain ⟨x, hx, l0, hor, bytes, hmem, hdec, hget⟩ :=
          ih (i + 1) (cnt + (abloItems p cnt l).1.length)
            (j - (abloItems p cnt l).1.length) h1r h2r
        refine ⟨x, List.mem_cons_of_mem _ hx, l0, hor, bytes, hmem, ?_, ?_⟩
        · rw [List.getElem_append_right hj2]
          have harith : cnt + (abloItems p cnt l).1.length +
              (j - (abloItems p cnt l).1.length) + 1 = cnt + j + 1 := by omega
          rw [harith] at hdec
          have hidx : j - (abloItems p cnt l).2.1.length = j - (abloItems p cnt l).1.length := by
            rw [← abloItems_len]
          simp only [hidx]
          exact hdec
        · rw [List.getElem_append_right hj]
          exact hget

/-!
## Pipeline-level helper lemmas and concrete fixtures
-/

theorem empty_append (s : String) : "" ++ s = s := by
  cases s
  rfl

/-- The prompt expander issues exactly one chat-completion call, on both
the success and the failure path. -/
theorem gp_trace (c : String) (n : Nat) (b : Bool) (chat : Option String) :
    (generate_image_prompts c n b chat).2 = [NetCall.chatCompletion] := by
  cases chat <;> rfl

theorem together_none (prompts : List String) (oracle : Nat → TogetherOutcome) :
    generate_images_with_together none prompts oracle =
      Except.error "TOGETHER_API_KEY is required for Together image generation. Add it to .env file." :=
  rfl

theorem ablo_none (prompts : List String) (oracle : Nat → String → AbloResult) :
    generate_images_with_ablo none prompts oracle =
      Except.error "ABLO_KEY is required for Ablo image generation. Add it to .env file." :=
  rfl

theorem enumFrom_get_mem {α : Type} : ∀ (l : List α) (k i : Nat) (h : i < l.length),
    (k + i, l.get ⟨i, h⟩) ∈ List.enumFrom k l := by
  intro l
  induction l with
  | nil => intro k i h; simp at h
  | cons a as ih =>
    intro k i h
    cases i with
    | zero =>
      rw [Nat.add_zero]
      exact List.mem_cons_self _ _
    | succ ii =>
      have hh : ii < as.length := by simpa using h
      have hmem := ih (k + 1) ii hh
      rw [show k + (ii + 1) = k + 1 + ii by omega]
      exact List.mem_cons_of_mem _ hmem

/-- In the web endpoint, a missing Together key is only discovered inside
the render step: the chat-completion call has already been issued and the
endpoint answers 500. -/
theorem apiGenerate_missing_together (p : String) (env : Env) (o : Oracles)
    (h : env.togetherApiKey = none) :
    apiGenerate p Provider.together env o = (500, [NetCall.chatCompletion]) := by
  simp only [apiGenerate]
  rw [h]
  split
  · exact congrArg (fun l => ((500 : Nat), l)) (gp_trace p 1 _ o.chat)
  · exact congrArg (fun l => ((500 : Nat), l)) (gp_trace p 1 _ o.chat)

/-- Same for the Ablo provider. -/
theorem apiGenerate_missing_ablo (p : String) (env : Env) (o : Oracles)
    (h : env.abloKey = none) :
    apiGenerate p Provider.ablo env o = (500, [NetCall.chatCompletion]) := by
  simp only [apiGenerate]
  rw [h]
  split
  · exact congrArg (fun l => ((500 : Nat), l)) (gp_trace p 1 _ o.chat)
  · exact congrArg (fun l => ((500 : Nat), l)) (gp_trace p 1 _ o.chat)

/-- A concrete oracle bundle for counterexamples and witnesses: the chat
service answers with one line of text, both image services fail, the clock
is frozen inside one second, saving succeeds. -/
def demoOracles : Oracles where
  chat := some "a scenic prompt"
  together := fun _ => TogetherOutcome.err
  ablo := fun _ _ => AbloResult.reqErr
  saveClock := fun _ => 1700000000
  saveOk := fun _ => true

/-- Environment with every credential except the Together key. -/
def envNoTogether : Env :=
  ⟨none, some "ablo-key", some "jwt", some "wallet"⟩

/-- Environment with every credential present. -/
def envFull : Env :=
  ⟨some "together-key", some "ablo-key", some "jwt", some "wallet"⟩

/-- Required credentials of one CLI invocation (provider key, plus the
upload keys when `--upload` is passed), as checked in `main`. -/
def credsOk (provider : Provider) (upload : Bool) (env : Env) : Prop :=
  (provider = Provider.together → env.togetherApiKey ≠ none) ∧
  (provider = Provider.ablo → env.abloKey ≠ none) ∧
  (upload = true → env.pinataJwt ≠ none ∧ env.walletPrivateKey ≠ none)

/-!
## Claims
-/

/-- C1 counterexample: the claim says two save operations on identical
payloads never produce the same filename and never overwrite. But the
filename depends only on the whole-second clock reading and the index, so
two `save_image` calls with index 0 within the same second return the very
same path: the second write replaces the first file. -/
theorem C1_counterexample :
    (save_image ["payload"] ["p"] [] 0 1700000000 none true).1 =
      some "generated_images/image_1700000000_0.png" ∧
    (save_image ["payload"] ["p"]
        (save_image ["payload"] ["p"] [] 0 1700000000 none true).2.1
        0 1700000000 none true).1 =
      some "generated_images/image_1700000000_0.png" := by
  decide

/-- C1 (amended): two save operations produce the same filename exactly
when they read the same whole-second timestamp and use the same index;
whenever the timestamps differ (clock advanced between the saves) or the
indices differ (two images of one batch, including duplicate payloads),
the filenames are distinct and nothing is overwritten. -/
theorem C1_claim (t1 i1 t2 i2 : Nat) :
    saveFilename t1 i1 = saveFilename t2 i2 ↔ t1 = t2 ∧ i1 = i2 := by
  constructor
  · exact saveFilename_inj
  · rintro ⟨rfl, rfl⟩
    rfl

/-- C1 witness: the amended equivalence evaluated at a concrete pair of
save operations. -/
theorem C1_witness :
    saveFilename 1700000000 0 = saveFilename 1700000000 1 ↔
      1700000000 = 1700000000 ∧ 0 = 1 :=
  C1_claim 1700000000 0 1700000000 1

/-- C2 counterexample: the claim says the transform is the identity on
every prompt that does not begin with the trigger token. The code only
checks a case-insensitive character prefix, so a prompt whose first word
merely starts with the trigger characters is still trimmed: the first
token of "n3lsonian man beach" is not the trigger token, yet the transform
rewrites the prompt to "beach". -/
theorem C2_counterexample :
    (pySplit "n3lsonian man beach").head? ≠ some "n3lson" ∧
    abloTransform "n3lsonian man beach" = "beach" ∧
    "beach" ≠ "n3lsonian man beach" := by
  decide

/-- C2 (amended): the transform fires whenever the lowercased prompt
starts with the characters "n3lson" (a prefix test, not a token test) and
the prompt has more than two whitespace-delimited words; it then drops the
first two words and re-joins the remaining words with single spaces (so
the surviving words are kept exactly, while original whitespace runs are
normalized). In every other case the prompt is returned unchanged. -/
theorem C2_claim (p : String) :
    (pyStartsWith (pyLower p) "n3lson" = false → abloTransform p = p) ∧
    ((pySplit p).length ≤ 2 → abloTransform p = p) ∧
    (pyStartsWith (pyLower p) "n3lson" = true → 2 < (pySplit p).length →
      abloTransform p = pyJoin ((pySplit p).drop 2) ∧
      pySplit (abloTransform p) = (pySplit p).drop 2) := by
  refine ⟨?_, ?_, ?_⟩
  · intro h
    unfold abloTransform
    rw [if_neg (by rw [h]; exact Bool.false_ne_true)]
  · intro h
    unfold abloTransform
    by_cases hs : pyStartsWith (pyLower p) "n3lson" = true
    · rw [if_pos hs, if_neg (by omega)]
    · rw [if_neg hs]
  · intro hs hlen
    have htr : abloTransform p = pyJoin ((pySplit p).drop 2) := by
      unfold abloTransform
      rw [if_pos hs, if_pos hlen]
    refine ⟨htr, ?_⟩
    rw [htr]
    refine pySplit_pyJoin ((pySplit p).drop 2) ?_
    intro t ht
    have htmem : t ∈ pySplit p := List.drop_subset 2 (pySplit p) ht
    exact pySplitAux_words p.data [] (by simp) t htmem

/-- C2 witness: the amended transform evaluated on a well-formed trigger
prompt. -/
theorem C2_witness :
    abloTransform "n3lson man on beach" =
      pyJoin ((pySplit "n3lson man on beach").drop 2) ∧
    pySplit (abloTransform "n3lson man on beach") =
      (pySplit "n3lson man on beach").drop 2 :=
  (C2_claim "n3lson man on beach").2.2 (by decide) (by decide)

/-- C3 counterexample: the claim says a successful chat round trip always
yields between 1 and n prompts. A successful response whose body is only
whitespace yields zero prompts: every line strips to empty and is
discarded. -/
theorem C3_counterexample :
    ¬ (∀ (concept text : String) (n : Nat),
      1 ≤ ((generate_image_prompts concept n true (some text)).1).length) :=
  fun h => absurd (h "beach" " " 3) (by decide)

/-- C3 (amended): on a successful chat round trip the expander returns at
most n prompts, each non-empty (split on line breaks, strip, discard empty
lines, truncate to n); the result is non-empty exactly when n is at least
1 and the response text contains a non-whitespace character. -/
theorem C3_claim (concept text : String) (n : Nat) (includeNelson : Bool) :
    ((generate_image_prompts concept n includeNelson (some text)).1).length ≤ n ∧
    (∀ p ∈ (generate_image_prompts concept n includeNelson (some text)).1, p ≠ "") ∧
    ((generate_image_prompts concept n includeNelson (some text)).1 ≠ [] ↔
      1 ≤ n ∧ pyStrip text ≠ "") := by
  refine ⟨?_, ?_, ?_⟩
  · exact extractPrompts_length_le text n
  · intro p hp
    exact extractPrompts_mem_ne hp
  · exact extractPrompts_ne_nil_iff text n

/-- C3 witness: the amended bounds evaluated on a concrete four-line
response truncated to two prompts. -/
theorem C3_witness :
    (generate_image_prompts "x" 2 true (some "a\nb\nc\nd")).1 ≠ [] ∧
    ("a" : String) ≠ "" :=
  ⟨(C3_claim "x" "a\nb\nc\nd" 2 true).2.2.mpr ⟨by decide, by decide⟩,
   (C3_claim "x" "a\nb\nc\nd" 2 true).2.1 "a" (by decide)⟩

/-- C4: when the chat call or its parsing fails, the expander returns
exactly n fallback prompts of the templated form (with the trigger word
prefixed exactly when required), each containing the concept verbatim; the
failure is absorbed and the pipeline continues. -/
theorem C4_claim (concept : String) (n : Nat) (includeNelson : Bool) :
    ((generate_image_prompts concept n includeNelson none).1).length = n ∧
    (∀ s ∈ (generate_image_prompts concept n includeNelson none).1,
      s = (if includeNelson then "n3lson " ++ concept ++ " realistic photo high definition"
           else concept ++ " realistic photo high definition")) ∧
    (∀ s ∈ (generate_image_prompts concept n includeNelson none).1,
      ∃ a b, s = a ++ concept ++ b) := by
  have hfb : (generate_image_prompts concept n includeNelson none).1 =
      fallbackPrompts concept n includeNelson := rfl
  refine ⟨?_, ?_, ?_⟩
  · rw [hfb]
    unfold fallbackPrompts
    cases includeNelson <;> simp
  · intro s hs
    rw [hfb] at hs
    unfold fallbackPrompts at hs
    cases includeNelson with
    | false =>
      rw [if_neg Bool.false_ne_true] at hs
      rw [if_neg Bool.false_ne_true]
      exact List.eq_of_mem_replicate hs
    | true =>
      rw [if_pos rfl] at hs
      rw [if_pos rfl]
      exact List.eq_of_mem_replicate hs
  · intro s hs
    rw [hfb] at hs
    unfold fallbackPrompts at hs
    cases includeNelson with
    | false =>
      rw [if_neg Bool.false_ne_true] at hs
      refine ⟨"", " realistic photo high definition", ?_⟩
      rw [List.eq_of_mem_replicate hs, empty_append]
    | true =>
      rw [if_pos rfl] at hs
      exact ⟨"n3lson ", " realistic photo high definition", List.eq_of_mem_replicate hs⟩

/-- C4 witness: the fallback path evaluated for a concrete concept and
count. -/
theorem C4_witness :
    ((generate_image_prompts "on beach" 2 true none).1).length = 2 ∧
    (∃ a b, ("n3lson on beach realistic photo high definition" : String) =
      a ++ "on beach" ++ b) :=
  ⟨(C4_claim "on beach" 2 true).1,
   (C4_claim "on beach" 2 true).2.2
     "n3lson on beach realistic photo high definition" (by decide)⟩

/-- C5 counterexample: the claim says a missing provider credential is
reported before any network call in every invocation. In the web endpoint
the credential is not checked up front: with the Together key absent, the
chat-completion request is still issued (it is the single entry of the
network trace) before the missing key aborts the render step with a 500
response. -/
theorem C5_counterexample :
    (apiGenerate "beach" Provider.together envNoTogether demoOracles).1 = 500 ∧
    (apiGenerate "beach" Provider.together envNoTogether demoOracles).2 =
      [NetCall.chatCompletion] := by
  decide

/-- C5 (amended): in CLI mode the credential check runs before the
pipeline, so a missing provider key exits with status 1 before any network
call; in the web endpoint a missing provider key yields a 500 error
response and no image-generation call, but only after the
prompt-generation request has already been issued. -/
theorem C5_claim (concept promptText : String) (variations : Nat)
    (provider : Provider) (upload : Bool) (env : Env) (o : Oracles)
    (hmissing : match provider with
      | Provider.together => env.togetherApiKey = none
      | Provider.ablo => env.abloKey = none) :
    cliMain concept variations provider upload env o = (1, [], []) ∧
    (apiGenerate promptText provider env o).1 = 500 ∧
    (apiGenerate promptText provider env o).2 = [NetCall.chatCompletion] := by
  cases provider with
  | together =>
    have hm : env.togetherApiKey = none := hmissing
    refine ⟨?_, ?_, ?_⟩
    · unfold cliMain
      rw [if_pos ⟨rfl, hm⟩]
    · rw [apiGenerate_missing_together promptText env o hm]
    · rw [apiGenerate_missing_together promptText env o hm]
  | ablo =>
    have hm : env.abloKey = none := hmissing
    refine ⟨?_, ?_, ?_⟩
    · unfold cliMain
      rw [if_neg (by rintro ⟨h, -⟩; exact absurd h (by decide)), if_pos ⟨rfl, hm⟩]
    · rw [apiGenerate_missing_ablo promptText env o hm]
    · rw [apiGenerate_missing_ablo promptText env o hm]

/-- C5 witness: the amended statement evaluated with the Together key
absent. -/
theorem C5_witness :
    cliMain "on beach" 3 Provider.together false envNoTogether demoOracles = (1, [], []) ∧
    (apiGenerate "beach" Provider.together envNoTogether demoOracles).1 = 500 ∧
    (apiGenerate "beach" Provider.together envNoTogether demoOracles).2 =
      [NetCall.chatCompletion] :=
  C5_claim "on beach" "beach" 3 Provider.together false envNoTogether demoOracles rfl

/-- C6: with the Together key present the render step returns one payload
per successful prompt: at most as many payloads as prompts, payloads and
prompts-used of equal length, and their zip is exactly the in-order list
of (payload, prompt) success pairs — a failed request or a missing data
field skips just that prompt. -/
theorem C6_claim (k : String) (prompts : List String)
    (oracle : Nat → TogetherOutcome) :
    ∃ images promptsUsed ev,
      generate_images_with_together (some k) prompts oracle =
        Except.ok (images, promptsUsed, ev) ∧
      images.length = promptsUsed.length ∧
      images.length ≤ prompts.length ∧
      images.zip promptsUsed = togPairs oracle prompts 0 := by
  refine ⟨(togPairs oracle prompts 0).map Prod.fst,
    (togPairs oracle prompts 0).map Prod.snd,
    prompts.map fun _ => NetCall.togetherImage, ?_, by simp, ?_, ?_⟩
  · show Except.ok ((togetherRun oracle prompts 0).1, (togetherRun oracle prompts 0).2,
      prompts.map fun _ => NetCall.togetherImage) = _
    rw [togetherRun_eq oracle prompts 0]
  · simpa using togPairs_length_le oracle prompts 0
  · rw [List.zip_map']
    simp

/-- C7: in the batch save step each index is tried in order; a failed
decode/write at one index contributes no record and does not stop later
saves, and the returned records are exactly one per successfully saved
image, with its filename and prompt. -/
theorem C7_claim (images promptsUsed : List String) (clock : Nat → Nat)
    (saveOk : Nat → Bool) :
    save_all_images images promptsUsed clock saveOk =
      (((images.zip promptsUsed).enum.filter fun x => saveOk x.1).map
        fun x => (saveFilename (clock x.1) x.1, x.2.2)) ∧
    (∀ i, i < (images.zip promptsUsed).length → saveOk i = false →
      ∀ pr, (saveFilename (clock i) i, pr) ∉
        save_all_images images promptsUsed clock saveOk) ∧
    (∀ i, (h : i < (images.zip promptsUsed).length) → saveOk i = true →
      (saveFilename (clock i) i, ((images.zip promptsUsed).get ⟨i, h⟩).2) ∈
        save_all_images images promptsUsed clock saveOk) := by
  have hchar : save_all_images images promptsUsed clock saveOk =
      (((images.zip promptsUsed).enum.filter fun x => saveOk x.1).map
        fun x => (saveFilename (clock x.1) x.1, x.2.2)) := by
    by_cases hempty : images.isEmpty = true
    · have himg : images = [] := List.isEmpty_iff.mp hempty
      subst himg
      simp [save_all_images]
    · unfold save_all_images
      rw [if_neg hempty, saveLoop_eq]
      rfl
  refine ⟨hchar, ?_, ?_⟩
  · intro i hlen hfalse pr hmem
    rw [hchar] at hmem
    obtain ⟨x, hxmem, hxeq⟩ := List.mem_map.mp hmem
    obtain ⟨hxenum, hxok⟩ := List.mem_filter.mp hxmem
    have hfn : saveFilename (clock x.1) x.1 = saveFilename (clock i) i :=
      congrArg Prod.fst hxeq
    have hidx := (saveFilename_inj hfn).2
    rw [hidx, hfalse] at hxok
    exact absurd hxok Bool.false_ne_true
  · intro i h htrue
    rw [hchar]
    have hx := enumFrom_get_mem (images.zip promptsUsed) 0 i h
    rw [Nat.zero_add] at hx
    have hxf : (i, (images.zip promptsUsed).get ⟨i, h⟩) ∈
        (images.zip promptsUsed).enum.filter fun x => saveOk x.1 :=
      List.mem_filter.mpr ⟨hx, htrue⟩
    have hmap := List.mem_map_of_mem
      (fun x => (saveFilename (clock x.1) x.1, x.2.2)) hxf
    simpa using hmap

/-- C7 witness: a failing save at index 1 contributes no record while the
successful save at index 0 does, in a concrete two-image batch. -/
theorem C7_witness :
    (saveFilename 1700000000 1, "q") ∉
      save_all_images ["a", "b"] ["p", "q"] (fun _ => 1700000000) (fun i => i == 0) ∧
    (saveFilename 1700000000 0, "p") ∈
      save_all_images ["a", "b"] ["p", "q"] (fun _ => 1700000000) (fun i => i == 0) :=
  ⟨(C7_claim ["a", "b"] ["p", "q"] (fun _ => 1700000000) (fun i => i == 0)).2.1
      1 (by decide) (by decide) "q",
   (C7_claim ["a", "b"] ["p", "q"] (fun _ => 1700000000) (fun i => i == 0)).2.2
      0 (by decide) (by decide)⟩

/-- C8: in CLI generation mode, when the required credentials are present
the exit code is 0 exactly when at least one image was produced and 1
otherwise; when a required credential (provider key, or the upload keys
with `--upload`) is missing, the exit code is 1. -/
theorem C8_claim (concept : String) (variations : Nat) (provider : Provider)
    (upload : Bool) (env : Env) (o : Oracles) :
    (credsOk provider upload env →
      ((cliMain concept variations provider upload env o).1 = 0 ↔
        (cliMain concept variations provider upload env o).2.1 ≠ [])) ∧
    (¬ credsOk provider upload env →
      (cliMain concept variations provider upload env o).1 = 1) := by
  by_cases h1 : provider = Provider.together ∧ env.togetherApiKey = none
  · constructor
    · intro hc
      obtain ⟨ha, -, -⟩ := hc
      exact absurd h1.2 (ha h1.1)
    · intro _
      unfold cliMain
      rw [if_pos h1]
  · by_cases h2 : provider = Provider.ablo ∧ env.abloKey = none
    · constructor
      · intro hc
        obtain ⟨-, hb, -⟩ := hc
        exact absurd h2.2 (hb h2.1)
      · intro _
        unfold cliMain
        rw [if_neg h1, if_pos h2]
    · by_cases h3 : upload = true ∧ (env.pinataJwt = none ∨ env.walletPrivateKey = none)
      · constructor
        · intro hc
          obtain ⟨-, -, hu⟩ := hc
          obtain ⟨hp, hw⟩ := hu h3.1
          rcases h3.2 with h | h
          · exact absurd h hp
          · exact absurd h hw
        · intro _
          unfold cliMain
          rw [if_neg h1, if_neg h2, if_pos h3]
      · have hrun : cliMain concept variations provider upload env o =
            (if (create_images_from_concept concept variations provider env o).1.isEmpty
              then 1 else 0,
             (create_images_from_concept concept variations provider env o).1,
             (create_images_from_concept concept variations provider env o).2.2) := by
          unfold cliMain
          rw [if_neg h1, if_neg h2, if_neg h3]
        constructor
        · intro _
          rw [hrun]
          show (if (create_images_from_concept concept variations provider env o).1.isEmpty
            then 1 else 0) = 0 ↔
            (create_images_from_concept concept variations provider env o).1 ≠ []
          by_cases he : (create_images_from_concept concept variations provider env o).1.isEmpty = true
          · rw [if_pos he]
            constructor
            · intro h0
              exact absurd h0 (by omega)
            · intro hne
              exact absurd (List.isEmpty_iff.mp he) hne
          · rw [if_neg he]
            constructor
            · intro _
              exact fun hX => he (by rw [hX]; rfl)
            · intro _
              rfl
        · intro hnc
          exfalso
          apply hnc
          exact ⟨fun hp hk => h1 ⟨hp, hk⟩, fun hp hk => h2 ⟨hp, hk⟩,
            fun hu => ⟨fun hk => h3 ⟨hu, Or.inl hk⟩, fun hk => h3 ⟨hu, Or.inr hk⟩⟩⟩

/-- C8 witness: with all credentials present and a render oracle that
fails every request, zero images are produced and the exit-code
equivalence holds concretely. -/
theorem C8_witness :
    (cliMain "x" 1 Provider.together false envFull demoOracles).1 = 0 ↔
      (cliMain "x" 1 Provider.together false envFull demoOracles).2.1 ≠ [] :=
  (C8_claim "x" 1 Provider.together false envFull demoOracles).1
    (by unfold credsOk; decide)

/-- C9: after a completed render call the stored image payloads and the
stored prompts-used have equal length, and they are positionally paired:
for Together the zip of the two lists is exactly the list of (payload,
producing prompt) success pairs in input order; for Ablo the j-th stored
prompt is the producing prompt decorated with the variant counter and the
j-th payload is the base64 re-encoding of bytes fetched for that same
prompt. -/
theorem C9_claim (k : String) (prompts : List String)
    (tOracle : Nat → TogetherOutcome) (aOracle : Nat → String → AbloResult) :
    (∃ images promptsUsed ev,
      generate_images_with_together (some k) prompts tOracle =
        Except.ok (images, promptsUsed, ev) ∧
      images.length = promptsUsed.length ∧
      images.zip promptsUsed = togPairs tOracle prompts 0) ∧
    (∃ images promptsUsed ev,
      generate_images_with_ablo (some k) prompts aOracle =
        Except.ok (images, promptsUsed, ev) ∧
      images.length = promptsUsed.length ∧
      (∀ j, (h1 : j < images.length) → (h2 : j < promptsUsed.length) →
        ∃ x ∈ prompts.enum, ∃ l0,
          aOracle x.1 (abloTransform x.2) = AbloResult.items l0 ∧
          ∃ bytes, AbloItem.urlOk bytes ∈ l0 ∧
            promptsUsed[j] = x.2 ++ " (variant " ++ natToString (j + 1) ++ ")" ∧
            images[j] = b64encodeStr bytes)) := by
  constructor
  · refine ⟨(togPairs tOracle prompts 0).map Prod.fst,
      (togPairs tOracle prompts 0).map Prod.snd,
      prompts.map fun _ => NetCall.togetherImage, ?_, by simp, ?_⟩
    · show Except.ok ((togetherRun tOracle prompts 0).1, (togetherRun tOracle prompts 0).2,
        prompts.map fun _ => NetCall.togetherImage) = _
      rw [togetherRun_eq tOracle prompts 0]
    · rw [List.zip_map']
      simp
  · refine ⟨(abloLoop aOracle prompts 0 0).1, (abloLoop aOracle prompts 0 0).2.1,
      (abloLoop aOracle prompts 0 0).2.2, rfl, abloLoop_len aOracle prompts 0 0, ?_⟩
    intro j h1 h2
    obtain ⟨x, hx, l0, hor, bytes, hmem, hdec, hget⟩ :=
      abloLoop_get aOracle prompts 0 0 j h1 h2
    refine ⟨x, hx, l0, hor, bytes, hmem, ?_, hget⟩
    rw [show 0 + j + 1 = j + 1 by omega] at hdec
    exact hdec

/-- C9 witness: the paired-lists invariant instantiated on a concrete
one-prompt Ablo run returning a single fetched variant. -/
theorem C9_witness :
    ∃ images promptsUsed ev,
      generate_images_with_ablo (some "k") ["n3lson man beach"]
        (fun _ _ => AbloResult.items [AbloItem.urlOk [77, 97, 110]]) =
        Except.ok (images, promptsUsed, ev) ∧
      images.length = promptsUsed.length := by
  obtain ⟨-, h⟩ := C9_claim "k" ["n3lson man beach"] (fun _ => TogetherOutcome.err)
    (fun _ _ => AbloResult.items [AbloItem.urlOk [77, 97, 110]])
  obtain ⟨images, promptsUsed, ev, heq, hlen, -⟩ := h
  exact ⟨images, promptsUsed, ev, heq, hlen⟩

/-- C10: a `save_image` call with no stored images, or with an index at
or beyond the number of stored images, returns `None`, leaves the
`image_files` state unchanged, and writes no file — the guard fires before
any filesystem access. -/
theorem C10_claim (generatedImages promptsUsed : List String)
    (imageFiles : List (String × String)) (index : Nat) (clock : Nat)
    (filenameArg : Option String) (saveOk : Bool)
    (h : generatedImages = [] ∨ generatedImages.length ≤ index) :
    save_image generatedImages promptsUsed imageFiles index clock filenameArg saveOk =
      (none, imageFiles, []) := by
  have hcond : generatedImages.isEmpty = true ∨ generatedImages.length ≤ index := by
    rcases h with h | h
    · subst h
      exact Or.inl rfl
    · exact Or.inr h
  unfold save_image
  rw [if_pos hcond]

/-- C10 witness: the out-of-range guard evaluated on an empty store. -/
theorem C10_witness :
    save_image [] [] [] 5 1700000000 none true = (none, [], []) :=
  C10_claim [] [] [] 5 1700000000 none true (Or.inl rfl)

end Story
